import Mathlib

/-!
# mcnp2cad geometry: transforms, fills and lattices

A shallow embedding of `geometry.cpp` and the properties of its
specification.

Conventions of the embedding.

* `int` values are mathematical integers (`Int`).  Signed overflow is undefined
  behaviour in C++, so the embedding describes the runs in which every
  intermediate `int` stays representable.
* `double` values are elements of a field `α` (the reals in the theorems that
  need analysis, the rationals for evaluation).  The library functions `cos`,
  `acos`, `sin` and the constant `M_PI` are taken as parameters.
* A failed `assert` and the `std::out_of_range` exception of `vector::at` are
  the two values of `Failure`; a fallible function returns `Except Failure _`.
-/

set_option autoImplicit false

namespace Mcnp2cad

/-! ## Fill addressing -/

/-- The two ways a call can fail: a failed `assert`, or `vector::at` out of range. -/
inductive Failure where
  | assertion
  | out_of_range
  deriving DecidableEq, Repr

/-- Modelled from the spec: the class `Fill` of `geometry.hpp` (not under `src/`):
a flag `has_grid`, three closed integer ranges held as `std::pair<int,int>`, and
the flat ordered sequence `nodes` of content units `N` (the opaque `FillNode`). -/
structure Fill (N : Type) where
  nodes : List N
  has_grid : Bool
  xrange : Int × Int
  yrange : Int × Int
  zrange : Int × Int

/-- The call `nodes.at(i)`: bounds-checked read of a `std::vector`. -/
def vectorAt {T : Type} (v : List T) (i : Nat) : Except Failure T :=
  match v[i]? with
  | some a => .ok a
  | none => .error Failure.out_of_range

/-- The extent `dx = xrange.second - xrange.first + 1` of a range. -/
def extent (r : Int × Int) : Int := r.2 - r.1 + 1

/-- The local `int index` of `Fill::indicesToSerialIndex`, before the assertion. -/
def Fill.rawIndex {N : Type} (f : Fill N) (x y z : Int) : Int :=
  let grid_x := x - f.xrange.1
  let grid_y := y - f.yrange.1
  let grid_z := z - f.zrange.1
  let dx := f.xrange.2 - f.xrange.1 + 1
  let dy := f.yrange.2 - f.yrange.1 + 1
  grid_z * (dy * dx) + grid_y * dx + grid_x

/-- The function `Fill::indicesToSerialIndex`: the flat index, guarded by
`assert( index >= 0 && (unsigned)(index) <= nodes.size() )`. -/
def Fill.indicesToSerialIndex {N : Type} (f : Fill N) (x y z : Int) : Except Failure Nat :=
  let index := f.rawIndex x y z
  if 0 ≤ index ∧ index.toNat ≤ f.nodes.length then
    .ok index.toNat
  else
    .error Failure.assertion

/-- The function `Fill::getOriginNode`. -/
def Fill.getOriginNode {N : Type} (f : Fill N) : Except Failure N :=
  if !f.has_grid then
    vectorAt f.nodes 0
  else
    match f.indicesToSerialIndex 0 0 0 with
    | .ok i => vectorAt f.nodes i
    | .error e => .error e

/-- The function `Fill::getNode`: `assert( has_grid )`, then `nodes.at( indicesToSerialIndex(x, y, z) )`. -/
def Fill.getNode {N : Type} (f : Fill N) (x y z : Int) : Except Failure N :=
  if f.has_grid then
    match f.indicesToSerialIndex x y z with
    | .ok i => vectorAt f.nodes i
    | .error e => .error e
  else
    .error Failure.assertion

/-- Membership of a coordinate in a closed range `[first, second]`. -/
def inRange (r : Int × Int) (c : Int) : Prop := r.1 ≤ c ∧ c ≤ r.2

instance (r : Int × Int) (c : Int) : Decidable (inRange r c) := by
  unfold inRange; infer_instance

/-- The 2 x 2 x 1 grid of the specification's example, over four named nodes. -/
def grid221 : Fill String :=
  { nodes := ["n000", "n100", "n010", "n110"], has_grid := true,
    xrange := (0, 1), yrange := (0, 1), zrange := (0, 0) }

/-! ## Vectors and transforms -/

/-- Modelled from the spec: the class `Vector3d` of `geometry.hpp` (not under
`src/`): three real components `v[0]`, `v[1]`, `v[2]`. -/
structure Vector3d (α : Type) where
  v0 : α
  v1 : α
  v2 : α
  deriving DecidableEq, Repr

section Scalars

variable {α : Type} [Field α]

/-- Modelled from the spec: the default constructor `Vector3d()` of `geometry.hpp`,
the start value of an accumulation, is the zero vector. -/
def Vector3d.zero : Vector3d α := ⟨0, 0, 0⟩

/-- Modelled from the spec: `operator-` of `Vector3d`, component-wise negation. -/
def Vector3d.neg (a : Vector3d α) : Vector3d α := ⟨-a.v0, -a.v1, -a.v2⟩

/-- Modelled from the spec: `operator+` of `Vector3d`, component-wise sum. -/
def Vector3d.add (a b : Vector3d α) : Vector3d α := ⟨a.v0 + b.v0, a.v1 + b.v1, a.v2 + b.v2⟩

/-- Modelled from the spec: `operator*` of `Vector3d`, scaling by a number. -/
def Vector3d.scale (a : Vector3d α) (s : α) : Vector3d α := ⟨a.v0 * s, a.v1 * s, a.v2 * s⟩

/-- Modelled from the spec: `Vector3d::dot`, the sum of the component products. -/
def Vector3d.dot (a b : Vector3d α) : α := a.v0 * b.v0 + a.v1 * b.v1 + a.v2 * b.v2

/-- Modelled from the spec: `Vector3d::cross`, the standard 3D cross product. -/
def Vector3d.cross (a b : Vector3d α) : Vector3d α :=
  ⟨a.v1 * b.v2 - a.v2 * b.v1, a.v2 * b.v0 - a.v0 * b.v2, a.v0 * b.v1 - a.v1 * b.v0⟩

/-- Modelled from the spec: the constructor `Vector3d( const std::vector<double>& )`
of `geometry.hpp`, which reads the first three entries with `at`. -/
def Vector3d.ofVector (p : List α) : Except Failure (Vector3d α) :=
  match vectorAt p 0, vectorAt p 1, vectorAt p 2 with
  | .ok a, .ok b, .ok c => .ok ⟨a, b, c⟩
  | _, _, _ => .error Failure.out_of_range

/-- Modelled from the spec: the constructor `Vector3d( const double p[3] )` of
`geometry.hpp`, applied to the array `p` at offset `off` (`raw_matrix + off`). -/
def Vector3d.ofArray (p : Nat → α) (off : Nat) : Vector3d α :=
  ⟨p off, p (off + 1), p (off + 2)⟩

/-- Modelled from the spec: the class `Transform` of `geometry.hpp`; `axis` and
`theta` (degrees) are meaningful only when `has_rot` holds. -/
structure Transform (α : Type) where
  translation : Vector3d α
  has_rot : Bool
  axis : Vector3d α
  theta : α
  deriving DecidableEq, Repr

/-- Modelled from the spec: the constructor `Transform( const Vector3d& )`, a pure
translation.  The fields left unset by C++ are given the value zero. -/
def Transform.ofVector3d (v : Vector3d α) : Transform α :=
  { translation := v, has_rot := false, axis := Vector3d.zero, theta := 0 }

/-- The matrix `mat` of `set_rots_from_matrix`: the raw triples read as columns. -/
def matOfRaw (raw_matrix : Nat → α) : Matrix (Fin 3) (Fin 3) α :=
  !![raw_matrix 0, raw_matrix 3, raw_matrix 6;
     raw_matrix 1, raw_matrix 4, raw_matrix 7;
     raw_matrix 2, raw_matrix 5, raw_matrix 8]

/-- The function `Transform::set_rots_from_matrix`: sets `theta` and `axis` of the transform. -/
def Transform.set_rots_from_matrix (acos sin : α → α) (pi : α) (t : Transform α)
    (raw_matrix : Nat → α) : Transform α :=
  let mat := matOfRaw raw_matrix
  let theta := acos ((mat 0 0 + mat 1 1 + mat 2 2 - 1) / 2)
  let twoSinTheta := 2 * sin theta
  let axis : Vector3d α :=
    ⟨(mat 2 1 - mat 1 2) / twoSinTheta,
     (mat 0 2 - mat 2 0) / twoSinTheta,
     (mat 1 0 - mat 0 1) / twoSinTheta⟩
  { t with axis := axis, theta := theta * (180 / pi) }

/-- The local `twoSinTheta` of `set_rots_from_matrix`, the divisor of the axis. -/
def twoSinTheta (acos sin : α → α) (raw_matrix : Nat → α) : α :=
  let mat := matOfRaw raw_matrix
  let theta := acos ((mat 0 0 + mat 1 1 + mat 2 2 - 1) / 2)
  2 * sin theta

/-- The entry conversion of the constructor's loops:
`degree_format_p ? cos(inputs.at(i) * M_PI / 180.0 ) : inputs.at(i)`. -/
def decodeEntry (cos : α → α) (pi : α) (degree_format_p : Bool) (x : α) : α :=
  if degree_format_p then cos (x * pi / 180) else x

/-- The loops `for (i = 3; i < n; ++i) raw_matrix[i-3] = ...inputs.at(i)...` of the
constructor, run over the list of loop indices. -/
def loadRaw (cos : α → α) (pi : α) (degree_format_p : Bool) (inputs : List α) :
    List Nat → (Nat → α) → Except Failure (Nat → α)
  | [], raw_matrix => .ok raw_matrix
  | i :: rest, raw_matrix =>
    match vectorAt inputs i with
    | .ok x =>
      loadRaw cos pi degree_format_p inputs rest
        (Function.update raw_matrix (i - 3) (decodeEntry cos pi degree_format_p x))
    | .error e => .error e

/-- The function `Transform::Transform( const std::vector<double>& inputs, bool degree_format_p )`.
The diagnostics written to `std::cout` and `std::cerr` are not part of the result;
`theta`, which C++ leaves unset without a rotation, holds zero there. -/
def Transform.ofInputs [DecidableEq α] (cos acos sin : α → α) (pi : α)
    (inputs : List α) (degree_format_p : Bool) : Except Failure (Transform α) :=
  let num_inputs := inputs.length
  match Vector3d.ofVector inputs with
  | .error e => .error e
  | .ok translation =>
    let t : Transform α :=
      { translation := translation, has_rot := false, axis := Vector3d.zero, theta := 0 }
    if num_inputs = 9 ∨ num_inputs = 12 ∨ num_inputs = 13 then
      let t := { t with has_rot := true }
      if num_inputs = 9 then
        match loadRaw cos pi degree_format_p inputs (List.range' 3 6) (fun _ => 0) with
        | .error e => .error e
        | .ok raw_matrix =>
          let v1 := Vector3d.ofArray raw_matrix 0
          let v2 := Vector3d.ofArray raw_matrix 3
          let v3 := v1.cross v2
          let raw_matrix := Function.update raw_matrix 6 v3.v0
          let raw_matrix := Function.update raw_matrix 7 v3.v1
          let raw_matrix := Function.update raw_matrix 8 v3.v2
          .ok (t.set_rots_from_matrix acos sin pi raw_matrix)
      else
        match loadRaw cos pi degree_format_p inputs (List.range' 3 9) (fun _ => 0) with
        | .error e => .error e
        | .ok raw_matrix =>
          if num_inputs = 13 then
            match vectorAt inputs 12 with
            | .error e => .error e
            | .ok m =>
              let t := if m = -1 then { t with translation := t.translation.neg } else t
              .ok (t.set_rots_from_matrix acos sin pi raw_matrix)
          else
            .ok (t.set_rots_from_matrix acos sin pi raw_matrix)
    else
      .ok t

/-- The array `raw_matrix` holding the values of the list `l` (zero elsewhere). -/
def rawOfList (l : List α) : Nat → α := fun k => l.getD k 0

/-- The axis and angle that `set_rots_from_matrix` stores for raw values `c0 .. c8`,
attached to translation `tr`. -/
def rotationOf (acos sin : α → α) (pi : α) (tr : Vector3d α)
    (c0 c1 c2 c3 c4 c5 c6 c7 c8 : α) : Transform α :=
  { translation := tr, has_rot := true,
    axis := ⟨(c5 - c7) / (2 * sin (acos ((c0 + c4 + c8 - 1) / 2))),
             (c6 - c2) / (2 * sin (acos ((c0 + c4 + c8 - 1) / 2))),
             (c1 - c3) / (2 * sin (acos ((c0 + c4 + c8 - 1) / 2)))⟩,
    theta := acos ((c0 + c4 + c8 - 1) / 2) * (180 / pi) }

/-- The function `Transform::reverse`. -/
def Transform.reverse (t : Transform α) : Transform α :=
  { translation := t.translation.neg, has_rot := t.has_rot,
    axis := t.axis.neg, theta := t.theta }

end Scalars

/-! ## Lattices -/

/-- Modelled from the spec: the holder `Ref<T>` of `geometry.hpp` (not under `src/`),
with its two variants: `ImmediateRef` stores the value inline, `PointerRef` stores a
non-owning handle, here an address into a heap of externally managed values. -/
inductive Ref (T : Type) where
  | ImmediateRef (data : T)
  | PointerRef (ptr : Nat)

/-- Modelled from the spec: `Ref<T>::getData`, "get the held data"; the externally
managed values live in `heap`. -/
def Ref.getData {T : Type} (heap : Nat → T) : Ref T → T
  | .ImmediateRef data => data
  | .PointerRef ptr => heap ptr

/-- Modelled from the spec: `Ref<T>::clone`: the owning variant clones by value copy,
the non-owning one re-wraps the same handle. -/
def Ref.clone {T : Type} : Ref T → Ref T
  | .ImmediateRef data => .ImmediateRef data
  | .PointerRef ptr => .PointerRef ptr

/-- Modelled from the spec: the class `Lattice` of `geometry.hpp`: the number of
finite dimensions, three basis vectors and the held Fill. -/
structure Lattice (N α : Type) where
  num_finite_dims : Int
  v1 : Vector3d α
  v2 : Vector3d α
  v3 : Vector3d α
  fill : Ref (Fill N)

/-- The function `Lattice::getTxForNode`: the `switch` with fall-through from `case 3` to `case 1`. -/
def Lattice.getTxForNode {N α : Type} [Field α] (l : Lattice N α) (x y z : Int) :
    Transform α :=
  let v : Vector3d α := Vector3d.zero
  let v := if l.num_finite_dims = 3 then l.v3.scale (z : α) else v
  let v := if l.num_finite_dims = 3 ∨ l.num_finite_dims = 2 then
      v.add (l.v2.scale (y : α)) else v
  let v := if l.num_finite_dims = 3 ∨ l.num_finite_dims = 2 ∨ l.num_finite_dims = 1 then
      v.add (l.v1.scale (x : α)) else v
  Transform.ofVector3d v

/-- The function `Lattice::getFillForNode`. -/
def Lattice.getFillForNode {N α : Type} (heap : Nat → Fill N) (l : Lattice N α)
    (x y z : Int) : Except Failure N :=
  if (l.fill.getData heap).has_grid then
    (l.fill.getData heap).getNode x y z
  else
    (l.fill.getData heap).getOriginNode

/-- The copy constructor `Lattice::Lattice( const Lattice& l )`: the fields are
copied and the holder is cloned. -/
def Lattice.copy {N α : Type} (l : Lattice N α) : Lattice N α :=
  { num_finite_dims := l.num_finite_dims, v1 := l.v1, v2 := l.v2, v3 := l.v3,
    fill := l.fill.clone }

/-- The copy assignment `Lattice::operator=`; `this_ne_l` is the outcome of the
address test `this != &l`. -/
def Lattice.assign {N α : Type} (self l : Lattice N α) (this_ne_l : Bool) : Lattice N α :=
  if this_ne_l then
    { num_finite_dims := l.num_finite_dims, fill := l.fill.clone,
      v1 := l.v1, v2 := l.v2, v3 := l.v3 }
  else
    self

/-- A non-gridded Fill holding one node, the result of `Fill(node)`. -/
def singleFill : Fill String :=
  { nodes := ["origin"], has_grid := false, xrange := (0, 0), yrange := (0, 0),
    zrange := (0, 0) }

/-- A 3 x 2 x 2 grid with ranges x:[-1,1], y:[0,1], z:[-1,0] over twelve nodes. -/
def grid322 : Fill String :=
  { nodes := ["a0", "a1", "a2", "a3", "a4", "a5", "a6", "a7", "a8", "a9", "a10", "a11"],
    has_grid := true, xrange := (-1, 1), yrange := (0, 1), zrange := (-1, 0) }

/-- A heap of externally managed Fills: the grid at address 0, single-node Fills
elsewhere. -/
def heap0 : Nat → Fill String := fun p => if p = 0 then grid221 else singleFill

/-- A lattice that refers to the Fill at address 0 without owning it. -/
def latticeRef : Lattice String ℚ :=
  { num_finite_dims := 3, v1 := ⟨1, 0, 0⟩, v2 := ⟨0, 1, 0⟩, v3 := ⟨0, 0, 1⟩,
    fill := .PointerRef 0 }

/-- A lattice that owns a single-node Fill. -/
def latticeOwn : Lattice String ℚ :=
  { num_finite_dims := 4, v1 := ⟨1, 0, 0⟩, v2 := ⟨0, 1, 0⟩, v3 := ⟨0, 0, 1⟩,
    fill := .ImmediateRef singleFill }

/-- The lattice of the specification's example: two finite dimensions, basis
`(1,0,0)`, `(0,1,0)`, `(0,0,99)`, holding the 2 x 2 x 1 grid by value. -/
def lattice2 : Lattice String ℚ :=
  { num_finite_dims := 2, v1 := ⟨1, 0, 0⟩, v2 := ⟨0, 1, 0⟩, v3 := ⟨0, 0, 99⟩,
    fill := .ImmediateRef grid221 }

/-! ## Transforms: entry lemmas -/

section MatrixEntries

variable {α : Type} (r : Nat → α)

theorem matOfRaw_00 : matOfRaw r 0 0 = r 0 := rfl
theorem matOfRaw_01 : matOfRaw r 0 1 = r 3 := rfl
theorem matOfRaw_02 : matOfRaw r 0 2 = r 6 := rfl
theorem matOfRaw_10 : matOfRaw r 1 0 = r 1 := rfl
theorem matOfRaw_11 : matOfRaw r 1 1 = r 4 := rfl
theorem matOfRaw_12 : matOfRaw r 1 2 = r 7 := rfl
theorem matOfRaw_20 : matOfRaw r 2 0 = r 2 := rfl
theorem matOfRaw_21 : matOfRaw r 2 1 = r 5 := rfl
theorem matOfRaw_22 : matOfRaw r 2 2 = r 8 := rfl

end MatrixEntries

/-! ## Fill addressing: lemmas -/

/-- Mixed-radix digits are unique: `q * n + a` with `0 ≤ a < n` determines `q` and `a`. -/
theorem digits_unique {n q a q' a' : Int} (ha : 0 ≤ a) (han : a < n) (ha' : 0 ≤ a')
    (han' : a' < n) (h : q * n + a = q' * n + a') : q = q' ∧ a = a' := by
  have hn : 0 < n := lt_of_le_of_lt ha han
  have e1 : (q * n + a) % n = a := by
    rw [add_comm, Int.add_mul_emod_self, Int.emod_eq_of_lt ha han]
  have e2 : (q' * n + a') % n = a' := by
    rw [add_comm, Int.add_mul_emod_self, Int.emod_eq_of_lt ha' han']
  have haa : a = a' := by rw [← e1, ← e2, h]
  subst haa
  have hq : q * n = q' * n := by linarith
  exact ⟨Int.eq_of_mul_eq_mul_right (ne_of_gt hn) hq, rfl⟩

/-- The index written as nested digits: `(grid_z * dy + grid_y) * dx + grid_x`. -/
theorem Fill.rawIndex_nested {N : Type} (f : Fill N) (x y z : Int) :
    f.rawIndex x y z
      = ((z - f.zrange.1) * extent f.yrange + (y - f.yrange.1)) * extent f.xrange
        + (x - f.xrange.1) := by
  simp only [Fill.rawIndex, extent]; ring

/-- In-range coordinates give an index in `[0, dx*dy*dz)`. -/
theorem Fill.rawIndex_bounds {N : Type} (f : Fill N) {x y z : Int}
    (hx : inRange f.xrange x) (hy : inRange f.yrange y) (hz : inRange f.zrange z) :
    0 ≤ f.rawIndex x y z ∧
      f.rawIndex x y z < extent f.xrange * extent f.yrange * extent f.zrange := by
  rw [Fill.rawIndex_nested]
  obtain ⟨hx1, hx2⟩ := hx
  obtain ⟨hy1, hy2⟩ := hy
  obtain ⟨hz1, hz2⟩ := hz
  simp only [extent]
  have gx : 0 ≤ x - f.xrange.1 := by linarith
  have gy : 0 ≤ y - f.yrange.1 := by linarith
  have gz : 0 ≤ z - f.zrange.1 := by linarith
  have dx : 0 < f.xrange.2 - f.xrange.1 + 1 := by linarith
  have dy : 0 < f.yrange.2 - f.yrange.1 + 1 := by linarith
  have gx' : x - f.xrange.1 + 1 ≤ f.xrange.2 - f.xrange.1 + 1 := by linarith
  have gy' : y - f.yrange.1 + 1 ≤ f.yrange.2 - f.yrange.1 + 1 := by linarith
  have gz' : z - f.zrange.1 + 1 ≤ f.zrange.2 - f.zrange.1 + 1 := by linarith
  constructor
  · positivity
  · have s1 : (z - f.zrange.1) * (f.yrange.2 - f.yrange.1 + 1) + (y - f.yrange.1) + 1
        ≤ (f.zrange.2 - f.zrange.1 + 1) * (f.yrange.2 - f.yrange.1 + 1) := by
      nlinarith [mul_le_mul_of_nonneg_right gz' (le_of_lt dy)]
    have s2 := mul_le_mul_of_nonneg_right s1 (le_of_lt dx)
    nlinarith [s2]

/-- On in-range coordinates the index determines the coordinates. -/
theorem Fill.rawIndex_injective {N : Type} (f : Fill N) {x y z x' y' z' : Int}
    (hx : inRange f.xrange x) (hy : inRange f.yrange y)
    (hx' : inRange f.xrange x') (hy' : inRange f.yrange y')
    (h : f.rawIndex x y z = f.rawIndex x' y' z') : x = x' ∧ y = y' ∧ z = z' := by
  rw [Fill.rawIndex_nested, Fill.rawIndex_nested] at h
  simp only [extent] at h
  obtain ⟨hx1, hx2⟩ := hx
  obtain ⟨hy1, hy2⟩ := hy
  obtain ⟨hx1', hx2'⟩ := hx'
  obtain ⟨hy1', hy2'⟩ := hy'
  obtain ⟨hq, hxx⟩ := digits_unique (by linarith) (by linarith) (by linarith) (by linarith) h
  obtain ⟨hzz, hyy⟩ := digits_unique (by linarith) (by linarith) (by linarith) (by linarith) hq
  exact ⟨by linarith, by linarith, by linarith⟩

/-- When the assertion holds, `indicesToSerialIndex` returns the index as a `size_t`. -/
theorem Fill.indicesToSerialIndex_ok {N : Type} (f : Fill N) {x y z : Int}
    (h0 : 0 ≤ f.rawIndex x y z) (h1 : f.rawIndex x y z ≤ f.nodes.length) :
    f.indicesToSerialIndex x y z = .ok (f.rawIndex x y z).toNat := by
  have h2 : (f.rawIndex x y z).toNat ≤ f.nodes.length := by omega
  simp [Fill.indicesToSerialIndex, h0, h2]

/-- Every index below `dx*dy*dz` is the index of some in-range coordinate triple. -/
theorem Fill.rawIndex_surjective {N : Type} (f : Fill N)
    (hx : f.xrange.1 ≤ f.xrange.2) (hy : f.yrange.1 ≤ f.yrange.2)
    (i : Int) (h0 : 0 ≤ i)
    (hi : i < extent f.xrange * extent f.yrange * extent f.zrange) :
    ∃ x y z, inRange f.xrange x ∧ inRange f.yrange y ∧ inRange f.zrange z ∧
      f.rawIndex x y z = i := by
  have dx : 0 < extent f.xrange := by simp only [extent]; linarith
  have dy : 0 < extent f.yrange := by simp only [extent]; linarith
  refine ⟨f.xrange.1 + i % extent f.xrange,
    f.yrange.1 + (i / extent f.xrange) % extent f.yrange,
    f.zrange.1 + (i / extent f.xrange) / extent f.yrange, ?_, ?_, ?_, ?_⟩
  · have a := Int.emod_nonneg i (ne_of_gt dx)
    have b := Int.emod_lt_of_pos i dx
    simp only [extent] at a b
    simp only [inRange, extent]
    constructor <;> linarith
  · have a := Int.emod_nonneg (i / extent f.xrange) (ne_of_gt dy)
    have b := Int.emod_lt_of_pos (i / extent f.xrange) dy
    simp only [extent] at a b
    simp only [inRange, extent]
    constructor <;> linarith
  · have q0 : 0 ≤ i / extent f.xrange := Int.ediv_nonneg h0 (le_of_lt dx)
    have a : 0 ≤ (i / extent f.xrange) / extent f.yrange := Int.ediv_nonneg q0 (le_of_lt dy)
    have q1 : i / extent f.xrange < extent f.yrange * extent f.zrange := by
      apply Int.ediv_lt_of_lt_mul dx
      nlinarith
    have b : (i / extent f.xrange) / extent f.yrange < extent f.zrange := by
      apply Int.ediv_lt_of_lt_mul dy
      nlinarith
    simp only [extent] at a b
    simp only [inRange, extent]
    constructor <;> linarith
  · rw [Fill.rawIndex_nested]
    have e1 := Int.ediv_add_emod (i / extent f.xrange) (extent f.yrange)
    have e2 := Int.ediv_add_emod i (extent f.xrange)
    have e3 : (f.zrange.1 + i / extent f.xrange / extent f.yrange - f.zrange.1)
          * extent f.yrange
        + (f.yrange.1 + i / extent f.xrange % extent f.yrange - f.yrange.1)
        = i / extent f.xrange := by
      linarith
    rw [e3]
    linarith

/-- A successful `nodes.at(i)` is exactly a successful list lookup. -/
theorem vectorAt_ok_iff {T : Type} (v : List T) (i : Nat) (a : T) :
    vectorAt v i = .ok a ↔ v[i]? = some a := by
  unfold vectorAt
  cases h : v[i]? <;> simp

/-- The outcome of `getNode` on a gridded Fill, by the position of the index. -/
theorem Fill.getNode_ok_iff {N : Type} (f : Fill N) (hg : f.has_grid = true)
    (x y z : Int) (n : N) :
    f.getNode x y z = .ok n ↔
      0 ≤ f.rawIndex x y z ∧ f.nodes[(f.rawIndex x y z).toNat]? = some n := by
  unfold Fill.getNode Fill.indicesToSerialIndex
  simp only [hg, if_true]
  by_cases h : 0 ≤ f.rawIndex x y z ∧ (f.rawIndex x y z).toNat ≤ f.nodes.length
  · simp only [h, and_self, if_true, true_and]
    exact vectorAt_ok_iff _ _ _
  · simp only [h, if_false]
    constructor
    · intro hc; cases hc
    · rintro ⟨h0, hs⟩
      exfalso
      apply h
      refine ⟨h0, ?_⟩
      have := (List.getElem?_eq_some_iff.mp hs).1
      omega

/-! ## Fill addressing: the properties -/

/-- C1: on a Fill whose ranges are non-empty and whose node count is `dx*dy*dz`,
`indicesToSerialIndex` restricted to the in-range coordinate triples is a bijection
onto `0 .. node_count-1`: every in-range triple gets an index below the node count,
distinct in-range triples get distinct indices, and every index below the node
count is the index of an in-range triple. -/
theorem indicesToSerialIndex_bijection {N : Type} (f : Fill N)
    (hx : f.xrange.1 ≤ f.xrange.2) (hy : f.yrange.1 ≤ f.yrange.2)
    (_hz : f.zrange.1 ≤ f.zrange.2)
    (hn : (f.nodes.length : Int) = extent f.xrange * extent f.yrange * extent f.zrange) :
    (∀ x y z, inRange f.xrange x → inRange f.yrange y → inRange f.zrange z →
      ∃ i, f.indicesToSerialIndex x y z = .ok i ∧ i < f.nodes.length) ∧
    (∀ x y z x' y' z', inRange f.xrange x → inRange f.yrange y → inRange f.zrange z →
      inRange f.xrange x' → inRange f.yrange y' → inRange f.zrange z' →
      f.indicesToSerialIndex x y z = f.indicesToSerialIndex x' y' z' →
      x = x' ∧ y = y' ∧ z = z') ∧
    (∀ i, i < f.nodes.length →
      ∃ x y z, inRange f.xrange x ∧ inRange f.yrange y ∧ inRange f.zrange z ∧
        f.indicesToSerialIndex x y z = .ok i) := by
  have key : ∀ x y z, inRange f.xrange x → inRange f.yrange y → inRange f.zrange z →
      0 ≤ f.rawIndex x y z ∧ f.rawIndex x y z < f.nodes.length ∧
      f.indicesToSerialIndex x y z = .ok (f.rawIndex x y z).toNat := by
    intro x y z ax ay az
    obtain ⟨b0, b1⟩ := f.rawIndex_bounds ax ay az
    rw [← hn] at b1
    exact ⟨b0, b1, f.indicesToSerialIndex_ok b0 (le_of_lt b1)⟩
  refine ⟨?_, ?_, ?_⟩
  · intro x y z ax ay az
    obtain ⟨b0, b1, e⟩ := key x y z ax ay az
    exact ⟨_, e, by omega⟩
  · intro x y z x' y' z' ax ay az ax' ay' az' h
    obtain ⟨b0, _, e⟩ := key x y z ax ay az
    obtain ⟨b0', _, e'⟩ := key x' y' z' ax' ay' az'
    rw [e, e'] at h
    have h' : (f.rawIndex x y z).toNat = (f.rawIndex x' y' z').toNat := by
      injection h
    exact f.rawIndex_injective ax ay ax' ay' (by omega)
  · intro i hi
    obtain ⟨x, y, z, ax, ay, az, e⟩ :=
      f.rawIndex_surjective hx hy (i : Int) (by omega) (by rw [← hn]; exact_mod_cast hi)
    refine ⟨x, y, z, ax, ay, az, ?_⟩
    rw [(key x y z ax ay az).2.2, e]
    rfl

/-- C1, on the specification's example: ranges x:[0,1], y:[0,1], z:[0,0] with four
nodes map (0,0,0) to 0, (1,0,0) to 1, (0,1,0) to 2 and (1,1,0) to 3, and there the
map is a bijection onto 0..3. -/
theorem indicesToSerialIndex_bijection_witness :
    (grid221.indicesToSerialIndex 0 0 0 = .ok 0 ∧
      grid221.indicesToSerialIndex 1 0 0 = .ok 1 ∧
      grid221.indicesToSerialIndex 0 1 0 = .ok 2 ∧
      grid221.indicesToSerialIndex 1 1 0 = .ok 3) ∧
    ((∀ x y z, inRange grid221.xrange x → inRange grid221.yrange y →
        inRange grid221.zrange z →
        ∃ i, grid221.indicesToSerialIndex x y z = .ok i ∧ i < grid221.nodes.length) ∧
      (∀ x y z x' y' z', inRange grid221.xrange x → inRange grid221.yrange y →
        inRange grid221.zrange z → inRange grid221.xrange x' →
        inRange grid221.yrange y' → inRange grid221.zrange z' →
        grid221.indicesToSerialIndex x y z = grid221.indicesToSerialIndex x' y' z' →
        x = x' ∧ y = y' ∧ z = z') ∧
      (∀ i, i < grid221.nodes.length →
        ∃ x y z, inRange grid221.xrange x ∧ inRange grid221.yrange y ∧
          inRange grid221.zrange z ∧ grid221.indicesToSerialIndex x y z = .ok i)) :=
  ⟨⟨rfl, rfl, rfl, rfl⟩,
    indicesToSerialIndex_bijection grid221 (by decide) (by decide) (by decide) (by decide)⟩

section Construction

variable {α : Type} [Field α] [DecidableEq α]
variable (cos acos sin : α → α) (pi : α)

/-- A 3-value input: translation only. -/
theorem ofInputs_three (a b c : α) (deg : Bool) :
    Transform.ofInputs cos acos sin pi [a, b, c] deg
      = .ok ⟨⟨a, b, c⟩, false, Vector3d.zero, 0⟩ := by
  simp [Transform.ofInputs, Vector3d.ofVector, vectorAt]

/-- A 9-value input: the third triple is the cross product of the two decoded ones. -/
theorem ofInputs_nine (t0 t1 t2 a0 a1 a2 a3 a4 a5 : α) (deg : Bool) :
    Transform.ofInputs cos acos sin pi [t0, t1, t2, a0, a1, a2, a3, a4, a5] deg
      = .ok (rotationOf acos sin pi ⟨t0, t1, t2⟩
          (decodeEntry cos pi deg a0) (decodeEntry cos pi deg a1) (decodeEntry cos pi deg a2)
          (decodeEntry cos pi deg a3) (decodeEntry cos pi deg a4) (decodeEntry cos pi deg a5)
          (decodeEntry cos pi deg a1 * decodeEntry cos pi deg a5
            - decodeEntry cos pi deg a2 * decodeEntry cos pi deg a4)
          (decodeEntry cos pi deg a2 * decodeEntry cos pi deg a3
            - decodeEntry cos pi deg a0 * decodeEntry cos pi deg a5)
          (decodeEntry cos pi deg a0 * decodeEntry cos pi deg a4
            - decodeEntry cos pi deg a1 * decodeEntry cos pi deg a3)) := by
  simp [Transform.ofInputs, Vector3d.ofVector, vectorAt, loadRaw, List.range',
    Transform.set_rots_from_matrix, matOfRaw_00, matOfRaw_01, matOfRaw_02, matOfRaw_10,
    matOfRaw_11, matOfRaw_12, matOfRaw_20, matOfRaw_21, matOfRaw_22, Function.update,
    Vector3d.ofArray, Vector3d.cross, rotationOf]

/-- A 12-value input: all nine matrix values are decoded from the list. -/
theorem ofInputs_twelve (t0 t1 t2 r0 r1 r2 r3 r4 r5 r6 r7 r8 : α) (deg : Bool) :
    Transform.ofInputs cos acos sin pi [t0, t1, t2, r0, r1, r2, r3, r4, r5, r6, r7, r8] deg
      = .ok (rotationOf acos sin pi ⟨t0, t1, t2⟩
          (decodeEntry cos pi deg r0) (decodeEntry cos pi deg r1) (decodeEntry cos pi deg r2)
          (decodeEntry cos pi deg r3) (decodeEntry cos pi deg r4) (decodeEntry cos pi deg r5)
          (decodeEntry cos pi deg r6) (decodeEntry cos pi deg r7)
          (decodeEntry cos pi deg r8)) := by
  simp [Transform.ofInputs, Vector3d.ofVector, vectorAt, loadRaw, List.range',
    Transform.set_rots_from_matrix, matOfRaw_00, matOfRaw_01, matOfRaw_02, matOfRaw_10,
    matOfRaw_11, matOfRaw_12, matOfRaw_20, matOfRaw_21, matOfRaw_22, Function.update,
    rotationOf]

/-- A 13-value input: as for 12 values, with the translation negated when the last
value is `-1`. -/
theorem ofInputs_thirteen (t0 t1 t2 r0 r1 r2 r3 r4 r5 r6 r7 r8 m : α) (deg : Bool) :
    Transform.ofInputs cos acos sin pi [t0, t1, t2, r0, r1, r2, r3, r4, r5, r6, r7, r8, m] deg
      = .ok (rotationOf acos sin pi
          (if m = -1 then (⟨t0, t1, t2⟩ : Vector3d α).neg else ⟨t0, t1, t2⟩)
          (decodeEntry cos pi deg r0) (decodeEntry cos pi deg r1) (decodeEntry cos pi deg r2)
          (decodeEntry cos pi deg r3) (decodeEntry cos pi deg r4) (decodeEntry cos pi deg r5)
          (decodeEntry cos pi deg r6) (decodeEntry cos pi deg r7)
          (decodeEntry cos pi deg r8)) := by
  by_cases hm : m = -1 <;>
  simp [Transform.ofInputs, Vector3d.ofVector, vectorAt, loadRaw, List.range',
    Transform.set_rots_from_matrix, matOfRaw_00, matOfRaw_01, matOfRaw_02, matOfRaw_10,
    matOfRaw_11, matOfRaw_12, matOfRaw_20, matOfRaw_21, matOfRaw_22, Function.update,
    rotationOf, hm]

end Construction

/-! ## Transform construction: the properties -/

section ConstructionProperties

variable {α : Type} [Field α] [DecidableEq α]

/-- C4: a 3-value input, with either value of `degree_format`, gives a Transform
with `has_rot = false` whose translation components are the three inputs, in
order and unchanged. -/
theorem ofInputs_length_three (cos acos sin : α → α) (pi : α) (inputs : List α)
    (degree_format_p : Bool) (h : inputs.length = 3) :
    ∃ t, Transform.ofInputs cos acos sin pi inputs degree_format_p = .ok t ∧
      t.has_rot = false ∧
      [t.translation.v0, t.translation.v1, t.translation.v2] = inputs := by
  match inputs, h with
  | [a, b, c], _ => exact ⟨_, ofInputs_three cos acos sin pi a b c degree_format_p, rfl, rfl⟩

/-- C4, on the input `[1, 2, 3]` over the rationals, in both formats. -/
theorem ofInputs_length_three_witness :
    (∃ t, Transform.ofInputs (fun x : ℚ => x) (fun x => x) (fun x => x) 3 [1, 2, 3] false
        = .ok t ∧ t.has_rot = false ∧
        [t.translation.v0, t.translation.v1, t.translation.v2] = [1, 2, 3]) ∧
    (∃ t, Transform.ofInputs (fun x : ℚ => x) (fun x => x) (fun x => x) 3 [1, 2, 3] true
        = .ok t ∧ t.has_rot = false ∧
        [t.translation.v0, t.translation.v1, t.translation.v2] = [1, 2, 3]) :=
  ⟨ofInputs_length_three _ _ _ 3 [1, 2, 3] false rfl,
    ofInputs_length_three _ _ _ 3 [1, 2, 3] true rfl⟩

/-- C5: a raw-format input of 12 or 13 values with matrix values `r0 .. r8` gives
`has_rot = true`, the angle `acos((r0 + r4 + r8 - 1)/2)` multiplied by `180/pi`, and
the axis `(r5 - r7, r6 - r2, r1 - r3) / (2 sin(acos((r0 + r4 + r8 - 1)/2)))`; this is
the formula `(M21-M12, M02-M20, M10-M01) / (2 sin angle)`, `angle = acos((trace M - 1)/2)`,
for the matrix `M i j = r (3*j+i)`. -/
theorem ofInputs_raw_axis_angle (cos acos sin : α → α) (pi : α)
    (t0 t1 t2 r0 r1 r2 r3 r4 r5 r6 r7 r8 : α) (rest : List α) (h : rest.length ≤ 1) :
    ∃ t, Transform.ofInputs cos acos sin pi
        ([t0, t1, t2, r0, r1, r2, r3, r4, r5, r6, r7, r8] ++ rest) false = .ok t ∧
      t.has_rot = true ∧
      t.theta = acos ((r0 + r4 + r8 - 1) / 2) * (180 / pi) ∧
      t.axis = ⟨(r5 - r7) / (2 * sin (acos ((r0 + r4 + r8 - 1) / 2))),
                (r6 - r2) / (2 * sin (acos ((r0 + r4 + r8 - 1) / 2))),
                (r1 - r3) / (2 * sin (acos ((r0 + r4 + r8 - 1) / 2)))⟩ ∧
      ∀ M : Matrix (Fin 3) (Fin 3) α,
        (∀ i j : Fin 3, M i j = rawOfList [r0, r1, r2, r3, r4, r5, r6, r7, r8]
          (3 * j.val + i.val)) →
        t.theta = acos ((M.trace - 1) / 2) * (180 / pi) ∧
        t.axis = ⟨(M 2 1 - M 1 2) / (2 * sin (acos ((M.trace - 1) / 2))),
                  (M 0 2 - M 2 0) / (2 * sin (acos ((M.trace - 1) / 2))),
                  (M 1 0 - M 0 1) / (2 * sin (acos ((M.trace - 1) / 2)))⟩ := by
  have spec : ∀ M : Matrix (Fin 3) (Fin 3) α,
      (∀ i j : Fin 3, M i j = rawOfList [r0, r1, r2, r3, r4, r5, r6, r7, r8]
        (3 * j.val + i.val)) →
      M.trace = r0 + r4 + r8 ∧ M 2 1 = r5 ∧ M 1 2 = r7 ∧ M 0 2 = r6 ∧ M 2 0 = r2 ∧
        M 1 0 = r1 ∧ M 0 1 = r3 := by
    intro M hM
    refine ⟨?_, ?_, ?_, ?_, ?_, ?_, ?_⟩
    · rw [Matrix.trace, Fin.sum_univ_three]
      simp only [Matrix.diag_apply, hM]
      rfl
    all_goals rw [hM]; rfl
  match rest, h with
  | [], _ =>
    refine ⟨_, ofInputs_twelve cos acos sin pi t0 t1 t2 r0 r1 r2 r3 r4 r5 r6 r7 r8 false,
      rfl, rfl, rfl, ?_⟩
    intro M hM
    obtain ⟨e, e21, e12, e02, e20, e10, e01⟩ := spec M hM
    rw [e, e21, e12, e02, e20, e10, e01]
    exact ⟨rfl, rfl⟩
  | [m], _ =>
    refine ⟨_, ofInputs_thirteen cos acos sin pi t0 t1 t2 r0 r1 r2 r3 r4 r5 r6 r7 r8 m false,
      rfl, rfl, rfl, ?_⟩
    intro M hM
    obtain ⟨e, e21, e12, e02, e20, e10, e01⟩ := spec M hM
    rw [e, e21, e12, e02, e20, e10, e01]
    exact ⟨rfl, rfl⟩

/-- C5, on a 13-value input over the rationals with stand-ins for `acos` and `sin`:
the matrix values `1,0,0, 0,0,-1, 0,1,0` give axis `(-1, 0, 0)` and angle `60`. -/
theorem ofInputs_raw_axis_angle_witness :
    ∃ t, Transform.ofInputs (fun x : ℚ => x) (fun x => x + 1) (fun x => x) 3
        ([1, 2, 3, 1, 0, 0, 0, 0, -1, 0, 1, 0] ++ [7]) false = .ok t ∧
      t.has_rot = true ∧ t.theta = 60 ∧ t.axis = ⟨-1, 0, 0⟩ := by
  obtain ⟨t, h1, h2, h3, h4, _⟩ := ofInputs_raw_axis_angle (fun x : ℚ => x) (fun x => x + 1)
    (fun x => x) 3 1 2 3 1 0 0 0 0 (-1) 0 1 0 [7] (by decide)
  refine ⟨t, h1, h2, ?_, ?_⟩
  · rw [h3]; norm_num
  · rw [h4]; norm_num
/-- C9: for a 9-value input the rotation is computed from the matrix whose first
two triples are inputs 3..5 and 6..8 (decoded by `cos(value*pi/180)` in degree
format) and whose third triple is their cross product; in raw format the result
equals, field by field, the Transform of the 12-value list that appends the cross
product of inputs 3..5 and 6..8. -/
theorem ofInputs_nine_completes_by_cross (cos acos sin : α → α) (pi : α)
    (t0 t1 t2 a0 a1 a2 a3 a4 a5 : α) (degree_format_p : Bool) :
    Transform.ofInputs cos acos sin pi [t0, t1, t2, a0, a1, a2, a3, a4, a5] degree_format_p
      = .ok (Transform.set_rots_from_matrix acos sin pi
          ⟨⟨t0, t1, t2⟩, true, Vector3d.zero, 0⟩
          (rawOfList
            [decodeEntry cos pi degree_format_p a0, decodeEntry cos pi degree_format_p a1,
             decodeEntry cos pi degree_format_p a2, decodeEntry cos pi degree_format_p a3,
             decodeEntry cos pi degree_format_p a4, decodeEntry cos pi degree_format_p a5,
             (Vector3d.cross
               ⟨decodeEntry cos pi degree_format_p a0, decodeEntry cos pi degree_format_p a1,
                decodeEntry cos pi degree_format_p a2⟩
               ⟨decodeEntry cos pi degree_format_p a3, decodeEntry cos pi degree_format_p a4,
                decodeEntry cos pi degree_format_p a5⟩).v0,
             (Vector3d.cross
               ⟨decodeEntry cos pi degree_format_p a0, decodeEntry cos pi degree_format_p a1,
                decodeEntry cos pi degree_format_p a2⟩
               ⟨decodeEntry cos pi degree_format_p a3, decodeEntry cos pi degree_format_p a4,
                decodeEntry cos pi degree_format_p a5⟩).v1,
             (Vector3d.cross
               ⟨decodeEntry cos pi degree_format_p a0, decodeEntry cos pi degree_format_p a1,
                decodeEntry cos pi degree_format_p a2⟩
               ⟨decodeEntry cos pi degree_format_p a3, decodeEntry cos pi degree_format_p a4,
                decodeEntry cos pi degree_format_p a5⟩).v2])) ∧
    Transform.ofInputs cos acos sin pi [t0, t1, t2, a0, a1, a2, a3, a4, a5] false
      = Transform.ofInputs cos acos sin pi
          ([t0, t1, t2, a0, a1, a2, a3, a4, a5] ++
            [(Vector3d.cross ⟨a0, a1, a2⟩ ⟨a3, a4, a5⟩).v0,
             (Vector3d.cross ⟨a0, a1, a2⟩ ⟨a3, a4, a5⟩).v1,
             (Vector3d.cross ⟨a0, a1, a2⟩ ⟨a3, a4, a5⟩).v2]) false := by
  constructor
  · rw [ofInputs_nine]
    rfl
  · rw [ofInputs_nine]
    exact (ofInputs_twelve cos acos sin pi t0 t1 t2 a0 a1 a2 a3 a4 a5 _ _ _ false).symm

/-- C10: a 13-value input gives the same `has_rot`, axis and angle as its first 12
values; its translation is the negation of the first three values when the 13th
value is `-1` and is the first three values otherwise. -/
theorem ofInputs_thirteen_vs_twelve (cos acos sin : α → α) (pi : α)
    (t0 t1 t2 r0 r1 r2 r3 r4 r5 r6 r7 r8 m : α) (degree_format_p : Bool) :
    ∃ t t12,
      Transform.ofInputs cos acos sin pi
        [t0, t1, t2, r0, r1, r2, r3, r4, r5, r6, r7, r8, m] degree_format_p = .ok t ∧
      Transform.ofInputs cos acos sin pi
        (List.take 12 [t0, t1, t2, r0, r1, r2, r3, r4, r5, r6, r7, r8, m]) degree_format_p
        = .ok t12 ∧
      t.has_rot = t12.has_rot ∧ t.axis = t12.axis ∧ t.theta = t12.theta ∧
      t.translation = (if m = -1 then ⟨-t0, -t1, -t2⟩ else ⟨t0, t1, t2⟩) := by
  refine ⟨_, _,
    ofInputs_thirteen cos acos sin pi t0 t1 t2 r0 r1 r2 r3 r4 r5 r6 r7 r8 m degree_format_p,
    ofInputs_twelve cos acos sin pi t0 t1 t2 r0 r1 r2 r3 r4 r5 r6 r7 r8 degree_format_p,
    rfl, rfl, rfl, ?_⟩
  by_cases hm : m = -1 <;> simp [rotationOf, hm, Vector3d.neg]

end ConstructionProperties

/-! ## Rotation matrices: algebra -/

section RotationAlgebra

variable {α : Type} [Field α]

/-- For a matrix with orthonormal rows and determinant one, every entry equals its
cofactor (`a b c`, `d e f`, `g h i` are the rows). -/
theorem entry_eq_cofactor (a b c d e f g h i : α)
    (n1 : a * a + b * b + c * c = 1) (n2 : d * d + e * e + f * f = 1)
    (n3 : g * g + h * h + i * i = 1)
    (o12 : a * d + b * e + c * f = 0) (o13 : a * g + b * h + c * i = 0)
    (o23 : d * g + e * h + f * i = 0)
    (hdet : a * (e * i - f * h) - b * (d * i - f * g) + c * (d * h - e * g) = 1) :
    (e * i - f * h = a ∧ f * g - d * i = b ∧ d * h - e * g = c) ∧
    (c * h - b * i = d ∧ a * i - c * g = e ∧ b * g - a * h = f) ∧
    (b * f - c * e = g ∧ c * d - a * f = h ∧ a * e - b * d = i) := by
  refine ⟨⟨?_, ?_, ?_⟩, ⟨?_, ?_, ?_⟩, ⟨?_, ?_, ?_⟩⟩
  · linear_combination (-(e*i - f*h)) * n1 - (c*h - b*i) * o12 - (b*f - c*e) * o13 + a * hdet
  · linear_combination (-(f*g - d*i)) * n1 - (a*i - c*g) * o12 - (c*d - a*f) * o13 + b * hdet
  · linear_combination (-(d*h - e*g)) * n1 - (b*g - a*h) * o12 - (a*e - b*d) * o13 + c * hdet
  · linear_combination (-(e*i - f*h)) * o12 - (c*h - b*i) * n2 - (b*f - c*e) * o23 + d * hdet
  · linear_combination (-(f*g - d*i)) * o12 - (a*i - c*g) * n2 - (c*d - a*f) * o23 + e * hdet
  · linear_combination (-(d*h - e*g)) * o12 - (b*g - a*h) * n2 - (a*e - b*d) * o23 + f * hdet
  · linear_combination (-(e*i - f*h)) * o13 - (c*h - b*i) * o23 - (b*f - c*e) * n3 + g * hdet
  · linear_combination (-(f*g - d*i)) * o13 - (a*i - c*g) * o23 - (c*d - a*f) * n3 + h * hdet
  · linear_combination (-(d*h - e*g)) * o13 - (b*g - a*h) * o23 - (a*e - b*d) * n3 + i * hdet

/-- The entry equations of `M * Mᵀ = 1` and `det M = 1` for `M = matOfRaw` of nine
values. -/
theorem matOfRaw_rotation_entries (r0 r1 r2 r3 r4 r5 r6 r7 r8 : α)
    (ho : matOfRaw (rawOfList [r0, r1, r2, r3, r4, r5, r6, r7, r8])
        * (matOfRaw (rawOfList [r0, r1, r2, r3, r4, r5, r6, r7, r8])).transpose = 1)
    (hd : (matOfRaw (rawOfList [r0, r1, r2, r3, r4, r5, r6, r7, r8])).det = 1) :
    (r0 * r0 + r3 * r3 + r6 * r6 = 1 ∧ r1 * r1 + r4 * r4 + r7 * r7 = 1 ∧
      r2 * r2 + r5 * r5 + r8 * r8 = 1) ∧
    (r0 * r1 + r3 * r4 + r6 * r7 = 0 ∧ r0 * r2 + r3 * r5 + r6 * r8 = 0 ∧
      r1 * r2 + r4 * r5 + r7 * r8 = 0) ∧
    r0 * (r4 * r8 - r7 * r5) - r3 * (r1 * r8 - r7 * r2) + r6 * (r1 * r5 - r4 * r2) = 1 := by
  have e00 := congrFun (congrFun ho 0) 0
  have e11 := congrFun (congrFun ho 1) 1
  have e22 := congrFun (congrFun ho 2) 2
  have e01 := congrFun (congrFun ho 0) 1
  have e02 := congrFun (congrFun ho 0) 2
  have e12 := congrFun (congrFun ho 1) 2
  simp only [Matrix.mul_apply, Fin.sum_univ_three, Matrix.transpose_apply, matOfRaw_00,
    matOfRaw_01, matOfRaw_02, matOfRaw_10, matOfRaw_11, matOfRaw_12, matOfRaw_20,
    matOfRaw_21, matOfRaw_22, rawOfList, List.getD_cons_zero, List.getD_cons_succ]
    at e00 e11 e22 e01 e02 e12
  rw [Matrix.det_fin_three] at hd
  simp only [matOfRaw_00,
    matOfRaw_01, matOfRaw_02, matOfRaw_10, matOfRaw_11, matOfRaw_12, matOfRaw_20,
    matOfRaw_21, matOfRaw_22, rawOfList, List.getD_cons_zero, List.getD_cons_succ] at hd
  simp at e00 e11 e22 e01 e02 e12
  refine ⟨⟨e00, e11, e22⟩, ⟨e01, e02, e12⟩, ?_⟩
  linear_combination hd

end RotationAlgebra

/-! ## Rotation matrices over the reals -/

/-- For a cosine strictly between -1 and 1 the divisor `2 sin(arccos c)` is positive
and its square is `4 (1 - c^2)`. -/
theorem two_sin_arccos {c : ℝ} (h1 : -1 < c) (h2 : c < 1) :
    0 < 2 * Real.sin (Real.arccos c) ∧
      (2 * Real.sin (Real.arccos c)) ^ 2 = 4 * (1 - c ^ 2) := by
  have hpos : 0 < 1 - c ^ 2 := by nlinarith
  rw [Real.sin_arccos]
  constructor
  · have := Real.sqrt_pos.mpr hpos
    linarith
  · rw [mul_pow, Real.sq_sqrt (le_of_lt hpos)]
    norm_num

/-- The quarter turn about the z axis, as raw values `0,1,0, -1,0,0, 0,0,1`, is
orthogonal. -/
theorem quarterTurn_orthogonal :
    matOfRaw (rawOfList [(0 : ℝ), 1, 0, -1, 0, 0, 0, 0, 1])
      * (matOfRaw (rawOfList [(0 : ℝ), 1, 0, -1, 0, 0, 0, 0, 1])).transpose = 1 := by
  ext i j
  fin_cases i <;> fin_cases j <;>
    simp [Matrix.mul_apply, Fin.sum_univ_three, Matrix.transpose_apply, matOfRaw_00,
      matOfRaw_01, matOfRaw_02, matOfRaw_10, matOfRaw_11, matOfRaw_12, matOfRaw_20,
      matOfRaw_21, matOfRaw_22, rawOfList]

/-- The quarter turn about the z axis has determinant one. -/
theorem quarterTurn_det :
    (matOfRaw (rawOfList [(0 : ℝ), 1, 0, -1, 0, 0, 0, 0, 1])).det = 1 := by
  rw [Matrix.det_fin_three]
  simp [matOfRaw, rawOfList]

/-- C6: for a 12-value raw-format input whose matrix is orthogonal with determinant
one and trace strictly between -1 and 3, the stored axis has Euclidean length 1
over the reals, and `(M21-M12)^2 + (M02-M20)^2 + (M10-M01)^2 = 4 sin(angle)^2`. -/
theorem ofInputs_axis_unit_length (t0 t1 t2 r0 r1 r2 r3 r4 r5 r6 r7 r8 : ℝ)
    (ho : matOfRaw (rawOfList [r0, r1, r2, r3, r4, r5, r6, r7, r8])
        * (matOfRaw (rawOfList [r0, r1, r2, r3, r4, r5, r6, r7, r8])).transpose = 1)
    (hd : (matOfRaw (rawOfList [r0, r1, r2, r3, r4, r5, r6, r7, r8])).det = 1)
    (hlo : -1 < r0 + r4 + r8) (hhi : r0 + r4 + r8 < 3) :
    ∃ t, Transform.ofInputs Real.cos Real.arccos Real.sin Real.pi
        [t0, t1, t2, r0, r1, r2, r3, r4, r5, r6, r7, r8] false = .ok t ∧
      t.has_rot = true ∧
      Real.sqrt (t.axis.dot t.axis) = 1 ∧
      (matOfRaw (rawOfList [r0, r1, r2, r3, r4, r5, r6, r7, r8]) 2 1
          - matOfRaw (rawOfList [r0, r1, r2, r3, r4, r5, r6, r7, r8]) 1 2) ^ 2
        + (matOfRaw (rawOfList [r0, r1, r2, r3, r4, r5, r6, r7, r8]) 0 2
          - matOfRaw (rawOfList [r0, r1, r2, r3, r4, r5, r6, r7, r8]) 2 0) ^ 2
        + (matOfRaw (rawOfList [r0, r1, r2, r3, r4, r5, r6, r7, r8]) 1 0
          - matOfRaw (rawOfList [r0, r1, r2, r3, r4, r5, r6, r7, r8]) 0 1) ^ 2
        = 4 * Real.sin (t.theta * (Real.pi / 180)) ^ 2 := by
  obtain ⟨⟨n1, n2, n3⟩, ⟨o12, o13, o23⟩, hdet⟩ :=
    matOfRaw_rotation_entries r0 r1 r2 r3 r4 r5 r6 r7 r8 ho hd
  obtain ⟨⟨ka, _, _⟩, ⟨_, ke, _⟩, ⟨_, _, ki⟩⟩ :=
    entry_eq_cofactor r0 r3 r6 r1 r4 r7 r2 r5 r8 n1 n2 n3 o12 o13 o23 hdet
  obtain ⟨spos, ssq⟩ := two_sin_arccos (c := (r0 + r4 + r8 - 1) / 2)
    (by linarith) (by linarith)
  have sumsq : (r5 - r7) ^ 2 + (r6 - r2) ^ 2 + (r1 - r3) ^ 2
      = (2 * Real.sin (Real.arccos ((r0 + r4 + r8 - 1) / 2))) ^ 2 := by
    rw [ssq]
    linear_combination n1 + n2 + n3 + 2 * ka + 2 * ke + 2 * ki
  refine ⟨_, ofInputs_twelve Real.cos Real.arccos Real.sin Real.pi
    t0 t1 t2 r0 r1 r2 r3 r4 r5 r6 r7 r8 false, rfl, ?_, ?_⟩
  · have hne : (2 * Real.sin (Real.arccos ((r0 + r4 + r8 - 1) / 2))) ≠ 0 := ne_of_gt spos
    have : (rotationOf Real.arccos Real.sin Real.pi ⟨t0, t1, t2⟩ r0 r1 r2 r3 r4 r5 r6 r7
        r8).axis.dot (rotationOf Real.arccos Real.sin Real.pi ⟨t0, t1, t2⟩ r0 r1 r2 r3 r4
        r5 r6 r7 r8).axis = 1 := by
      simp only [rotationOf, Vector3d.dot]
      field_simp
      linear_combination sumsq
    simp only [decodeEntry, Bool.false_eq_true, if_false]
    rw [this, Real.sqrt_one]
  · have hth : (rotationOf Real.arccos Real.sin Real.pi ⟨t0, t1, t2⟩ r0 r1 r2 r3 r4 r5 r6 r7
        r8).theta * (Real.pi / 180) = Real.arccos ((r0 + r4 + r8 - 1) / 2) := by
      simp only [rotationOf]
      field_simp
    simp only [decodeEntry, Bool.false_eq_true, if_false]
    rw [hth]
    simp only [matOfRaw_01, matOfRaw_02, matOfRaw_10, matOfRaw_12, matOfRaw_20, matOfRaw_21,
      rawOfList, List.getD_cons_zero, List.getD_cons_succ]
    linear_combination sumsq

/-- C6, on the quarter turn about the z axis (trace 1): the stored axis has
length 1. -/
theorem ofInputs_axis_unit_length_witness :
    ∃ t, Transform.ofInputs Real.cos Real.arccos Real.sin Real.pi
        [0, 0, 0, 0, 1, 0, -1, 0, 0, 0, 0, 1] false = .ok t ∧
      t.has_rot = true ∧ Real.sqrt (t.axis.dot t.axis) = 1 := by
  obtain ⟨t, h1, h2, h3, _⟩ := ofInputs_axis_unit_length 0 0 0 0 1 0 (-1) 0 0 0 0 1
    quarterTurn_orthogonal quarterTurn_det (by norm_num) (by norm_num)
  exact ⟨t, h1, h2, h3⟩

/-- C7: for a 12-value raw-format input whose matrix `M` (the transposed matrix used
for the decomposition) is orthogonal with determinant one and trace strictly
between -1 and 3, the stored axis `a` is a fixed vector of the rotation, `M a = a`,
and it is not the zero vector. -/
theorem ofInputs_axis_fixed (t0 t1 t2 r0 r1 r2 r3 r4 r5 r6 r7 r8 : ℝ)
    (ho : matOfRaw (rawOfList [r0, r1, r2, r3, r4, r5, r6, r7, r8])
        * (matOfRaw (rawOfList [r0, r1, r2, r3, r4, r5, r6, r7, r8])).transpose = 1)
    (hd : (matOfRaw (rawOfList [r0, r1, r2, r3, r4, r5, r6, r7, r8])).det = 1)
    (hlo : -1 < r0 + r4 + r8) (hhi : r0 + r4 + r8 < 3) :
    ∃ t, Transform.ofInputs Real.cos Real.arccos Real.sin Real.pi
        [t0, t1, t2, r0, r1, r2, r3, r4, r5, r6, r7, r8] false = .ok t ∧
      (matOfRaw (rawOfList [r0, r1, r2, r3, r4, r5, r6, r7, r8])).mulVec
          ![t.axis.v0, t.axis.v1, t.axis.v2]
        = ![t.axis.v0, t.axis.v1, t.axis.v2] ∧
      t.axis ≠ Vector3d.zero := by
  obtain ⟨⟨n1, n2, n3⟩, ⟨o12, o13, o23⟩, hdet⟩ :=
    matOfRaw_rotation_entries r0 r1 r2 r3 r4 r5 r6 r7 r8 ho hd
  obtain ⟨⟨ka, kb, kc⟩, ⟨kd, ke, kf⟩, ⟨kg, kh, ki⟩⟩ :=
    entry_eq_cofactor r0 r3 r6 r1 r4 r7 r2 r5 r8 n1 n2 n3 o12 o13 o23 hdet
  obtain ⟨spos, ssq⟩ := two_sin_arccos (c := (r0 + r4 + r8 - 1) / 2)
    (by linarith) (by linarith)
  have hne : (2 * Real.sin (Real.arccos ((r0 + r4 + r8 - 1) / 2))) ≠ 0 := ne_of_gt spos
  refine ⟨_, ofInputs_twelve Real.cos Real.arccos Real.sin Real.pi
    t0 t1 t2 r0 r1 r2 r3 r4 r5 r6 r7 r8 false, ?_, ?_⟩
  · simp only [decodeEntry, Bool.false_eq_true, if_false, rotationOf]
    funext i
    fin_cases i
    · simp only [Matrix.mulVec, Matrix.dotProduct, Fin.sum_univ_three, Fin.zero_eta,
        matOfRaw_00, matOfRaw_01, matOfRaw_02, rawOfList, List.getD_cons_zero,
        List.getD_cons_succ, Matrix.cons_val_zero, Matrix.cons_val_one, Matrix.head_cons,
        Matrix.cons_val_two, Matrix.tail_cons]
      field_simp
      linear_combination kh - kf
    · simp only [Matrix.mulVec, Matrix.dotProduct, Fin.sum_univ_three, Fin.mk_one,
        matOfRaw_10, matOfRaw_11, matOfRaw_12, rawOfList, List.getD_cons_zero,
        List.getD_cons_succ, Matrix.cons_val_zero, Matrix.cons_val_one, Matrix.head_cons,
        Matrix.cons_val_two, Matrix.tail_cons]
      field_simp
      linear_combination kc - kg
    · simp only [Matrix.mulVec, Matrix.dotProduct, Fin.sum_univ_three, Fin.reduceFinMk,
        matOfRaw_20, matOfRaw_21, matOfRaw_22, rawOfList, List.getD_cons_zero,
        List.getD_cons_succ, Matrix.cons_val_zero, Matrix.cons_val_one, Matrix.head_cons,
        Matrix.cons_val_two, Matrix.tail_cons]
      field_simp
      linear_combination kd - kb
  · intro hz
    simp only [decodeEntry, Bool.false_eq_true, if_false, rotationOf, Vector3d.zero,
      Vector3d.mk.injEq, div_eq_zero_iff, hne, or_false] at hz
    obtain ⟨z0, z1, z2⟩ := hz
    have : (2 * Real.sin (Real.arccos ((r0 + r4 + r8 - 1) / 2))) ^ 2 = 0 := by
      rw [ssq]
      linear_combination (-1 : ℝ) * n1 - n2 - n3 - 2 * ka - 2 * ke - 2 * ki
        + (r5 - r7) * z0 + (r6 - r2) * z1 + (r1 - r3) * z2
    exact hne (pow_eq_zero_iff (two_ne_zero) |>.mp this)

/-- C7, on the quarter turn about the z axis: the stored axis is fixed by the
matrix. -/
theorem ofInputs_axis_fixed_witness :
    ∃ t, Transform.ofInputs Real.cos Real.arccos Real.sin Real.pi
        [0, 0, 0, 0, 1, 0, -1, 0, 0, 0, 0, 1] false = .ok t ∧
      (matOfRaw (rawOfList [(0 : ℝ), 1, 0, -1, 0, 0, 0, 0, 1])).mulVec
          ![t.axis.v0, t.axis.v1, t.axis.v2]
        = ![t.axis.v0, t.axis.v1, t.axis.v2] ∧
      t.axis ≠ Vector3d.zero :=
  ofInputs_axis_fixed 0 0 0 0 1 0 (-1) 0 0 0 0 1
    quarterTurn_orthogonal quarterTurn_det (by norm_num) (by norm_num)

/-! ## The degree-format example -/

/-- Decoding in degree format over the reals: `0` decodes to `1` and `90` to `0`. -/
theorem decodeEntry_degrees :
    decodeEntry Real.cos Real.pi true 0 = 1 ∧ decodeEntry Real.cos Real.pi true 90 = 0 := by
  constructor
  · simp [decodeEntry]
  · have h : (90 : ℝ) * Real.pi / 180 = Real.pi / 2 := by ring
    simp only [decodeEntry, if_true, h, Real.cos_pi_div_two]

/-- The Transform of the degree-format input `[0,0,0, 0,90,0, 90,0,0]` over the
reals, in terms of the decoded values. -/
theorem degree_example_value :
    Transform.ofInputs Real.cos Real.arccos Real.sin Real.pi
        [0, 0, 0, 0, 90, 0, 90, 0, 0] true
      = .ok (rotationOf Real.arccos Real.sin Real.pi ⟨0, 0, 0⟩ 1 0 1 0 1 1
          (0 * 1 - 1 * 1) (1 * 0 - 1 * 1) (1 * 1 - 0 * 0)) := by
  rw [ofInputs_nine, decodeEntry_degrees.1, decodeEntry_degrees.2]

/-- C8, refuted: for the degree-format input `[0,0,0, 0,90,0, 90,0,0]` the stored
angle is 0, not 90. -/
theorem degree_example_angle_not_ninety :
    ∃ t, Transform.ofInputs Real.cos Real.arccos Real.sin Real.pi
        [0, 0, 0, 0, 90, 0, 90, 0, 0] true = .ok t ∧ t.theta = 0 ∧ t.theta ≠ 90 := by
  refine ⟨_, degree_example_value, ?_, ?_⟩ <;>
    simp only [rotationOf] <;> norm_num

/-- C8, amended: the degree-format input `[0,0,0, 0,90,0, 90,0,0]` is decoded to the
cosine rows `(1,0,1)` and `(0,1,1)`, the third row is their cross product
`(-1,-1,1)`, `has_rot` is set, and the stored angle is 0 (the trace is 3). -/
theorem ofInputs_degree_example_angle_zero :
    ∃ t, Transform.ofInputs Real.cos Real.arccos Real.sin Real.pi
        [0, 0, 0, 0, 90, 0, 90, 0, 0] true = .ok t ∧
      t = Transform.set_rots_from_matrix Real.arccos Real.sin Real.pi
          ⟨⟨0, 0, 0⟩, true, Vector3d.zero, 0⟩
          (rawOfList [Real.cos (0 * Real.pi / 180), Real.cos (90 * Real.pi / 180),
            Real.cos (0 * Real.pi / 180), Real.cos (90 * Real.pi / 180),
            Real.cos (0 * Real.pi / 180), Real.cos (0 * Real.pi / 180),
            (Vector3d.cross (⟨1, 0, 1⟩ : Vector3d ℝ) ⟨0, 1, 1⟩).v0,
            (Vector3d.cross (⟨1, 0, 1⟩ : Vector3d ℝ) ⟨0, 1, 1⟩).v1,
            (Vector3d.cross (⟨1, 0, 1⟩ : Vector3d ℝ) ⟨0, 1, 1⟩).v2]) ∧
      [Real.cos (0 * Real.pi / 180), Real.cos (90 * Real.pi / 180),
        Real.cos (0 * Real.pi / 180), Real.cos (90 * Real.pi / 180),
        Real.cos (0 * Real.pi / 180), Real.cos (0 * Real.pi / 180)] = [1, 0, 1, 0, 1, 1] ∧
      Vector3d.cross (⟨1, 0, 1⟩ : Vector3d ℝ) ⟨0, 1, 1⟩ = ⟨-1, -1, 1⟩ ∧
      t.has_rot = true ∧ t.theta = 0 := by
  have c0 : Real.cos (0 * Real.pi / 180) = 1 := by simp
  have c90 : Real.cos (90 * Real.pi / 180) = 0 := by
    have h : (90 : ℝ) * Real.pi / 180 = Real.pi / 2 := by ring
    rw [h, Real.cos_pi_div_two]
  refine ⟨_, degree_example_value, ?_, ?_, ?_, rfl, ?_⟩
  · rw [c0, c90]
    rfl
  · rw [c0, c90]
  · simp [Vector3d.cross]
  · simp only [rotationOf]
    norm_num

/-! ## Lattice transforms -/

/-- C3: for `num_finite_dims` in {1,2,3}, `getTxForNode(x,y,z)` is a Transform
without rotation whose translation is `x*v1`, `x*v1 + y*v2` or `x*v1 + y*v2 + z*v3`
respectively; so a 2-dimensional lattice gives the same translation for every z
and a 1-dimensional one for every y and z. -/
theorem getTxForNode_translation {N α : Type} [Field α] (l : Lattice N α)
    (x y z : Int) :
    (l.getTxForNode x y z).has_rot = false ∧
    (l.num_finite_dims = 1 →
      (l.getTxForNode x y z).translation = l.v1.scale (x : α) ∧
      ∀ y' z', (l.getTxForNode x y' z').translation = (l.getTxForNode x y z).translation) ∧
    (l.num_finite_dims = 2 →
      (l.getTxForNode x y z).translation = (l.v1.scale (x : α)).add (l.v2.scale (y : α)) ∧
      ∀ z', (l.getTxForNode x y z').translation = (l.getTxForNode x y z).translation) ∧
    (l.num_finite_dims = 3 →
      (l.getTxForNode x y z).translation
        = ((l.v1.scale (x : α)).add (l.v2.scale (y : α))).add (l.v3.scale (z : α))) := by
  refine ⟨rfl, ?_, ?_, ?_⟩
  · intro h
    simp [Lattice.getTxForNode, h, Transform.ofVector3d, Vector3d.add, Vector3d.scale,
      Vector3d.zero]
  · intro h
    simp [Lattice.getTxForNode, h, Transform.ofVector3d, Vector3d.add, Vector3d.scale,
      Vector3d.zero, add_comm]
  · intro h
    simp only [Lattice.getTxForNode, h, Transform.ofVector3d, Vector3d.add, Vector3d.scale,
      Vector3d.zero, if_true, true_or, Vector3d.mk.injEq]
    refine ⟨?_, ?_, ?_⟩ <;> ring

/-- C3, on the specification's example (dims 2, `v3 = (0,0,99)`): the translations
of `getTxForNode(2,3,0)` and `getTxForNode(2,3,500)` are equal, both `(2,3,0)`. -/
theorem getTxForNode_translation_witness :
    (lattice2.getTxForNode 2 3 500).translation = (lattice2.getTxForNode 2 3 0).translation ∧
    (lattice2.getTxForNode 2 3 0).translation
      = (lattice2.v1.scale ((2 : Int) : ℚ)).add (lattice2.v2.scale ((3 : Int) : ℚ)) ∧
    (lattice2.getTxForNode 2 3 0).has_rot = false ∧
    (lattice2.getTxForNode 2 3 500).translation = ⟨2, 3, 0⟩ :=
  have h := getTxForNode_translation lattice2 2 3 0
  ⟨(h.2.2.1 rfl).2 500, (h.2.2.1 rfl).1, h.1, by
    simp [Lattice.getTxForNode, lattice2, Transform.ofVector3d, Vector3d.add, Vector3d.scale,
      Vector3d.zero]⟩

/-- C20: for `num_finite_dims` outside {1,2,3}, also above 3, `getTxForNode(x,y,z)`
is the rotation-free Transform with the zero translation: no basis vector
contributes. -/
theorem getTxForNode_no_finite_dims {N α : Type} [Field α] (l : Lattice N α)
    (h1 : l.num_finite_dims ≠ 1) (h2 : l.num_finite_dims ≠ 2) (h3 : l.num_finite_dims ≠ 3)
    (x y z : Int) :
    (l.getTxForNode x y z).has_rot = false ∧
      (l.getTxForNode x y z).translation = ⟨0, 0, 0⟩ := by
  simp [Lattice.getTxForNode, h1, h2, h3, Transform.ofVector3d, Vector3d.zero]

/-- C20, on lattices with 4, 0 and -1 finite dimensions. -/
theorem getTxForNode_no_finite_dims_witness :
    ((latticeOwn.getTxForNode 5 6 7).has_rot = false ∧
      (latticeOwn.getTxForNode 5 6 7).translation = ⟨0, 0, 0⟩) ∧
    (({ lattice2 with num_finite_dims := 0 } : Lattice String ℚ).getTxForNode 5 6 7).translation
      = ⟨0, 0, 0⟩ ∧
    (({ lattice2 with num_finite_dims := -1 } : Lattice String ℚ).getTxForNode 5 6 7).translation
      = ⟨0, 0, 0⟩ :=
  ⟨getTxForNode_no_finite_dims latticeOwn (by decide) (by decide) (by decide) 5 6 7,
    (getTxForNode_no_finite_dims _ (by decide) (by decide) (by decide) 5 6 7).2,
    (getTxForNode_no_finite_dims _ (by decide) (by decide) (by decide) 5 6 7).2⟩

/-! ## Unsupported lengths, reversal and transposition -/

section ReverseProperties

variable {α : Type} [Field α] [DecidableEq α]

/-- C11: an input of length at least 3 that is not 3, 9, 12 or 13 does not fail: the
result has `has_rot = false`, its translation is the first three inputs, and axis
and angle are left as they were initialised (`set_rots_from_matrix` is not run). -/
theorem ofInputs_unsupported_length (cos acos sin : α → α) (pi : α) (inputs : List α)
    (degree_format_p : Bool) (h3 : 3 ≤ inputs.length) (hn3 : inputs.length ≠ 3)
    (hn9 : inputs.length ≠ 9) (hn12 : inputs.length ≠ 12) (hn13 : inputs.length ≠ 13) :
    ∃ a b c rest, inputs = a :: b :: c :: rest ∧
      Transform.ofInputs cos acos sin pi inputs degree_format_p
        = .ok ⟨⟨a, b, c⟩, false, Vector3d.zero, 0⟩ := by
  match inputs, h3, hn3, hn9, hn12, hn13 with
  | a :: b :: c :: rest, _, _, k9, k12, k13 =>
    refine ⟨a, b, c, rest, rfl, ?_⟩
    simp only [List.length_cons] at k9 k12 k13
    simp [Transform.ofInputs, Vector3d.ofVector, vectorAt, k9, k12, k13]

/-- C11, on inputs of length 4 and 10 over the rationals. -/
theorem ofInputs_unsupported_length_witness :
    Transform.ofInputs (fun x : ℚ => x) (fun x => x) (fun x => x) 3 [1, 2, 3, 4] false
        = .ok ⟨⟨1, 2, 3⟩, false, Vector3d.zero, 0⟩ ∧
    Transform.ofInputs (fun x : ℚ => x) (fun x => x) (fun x => x) 3
        [1, 2, 3, 4, 5, 6, 7, 8, 9, 10] true
        = .ok ⟨⟨1, 2, 3⟩, false, Vector3d.zero, 0⟩ := by
  obtain ⟨a, b, c, rest, e, h⟩ := ofInputs_unsupported_length (fun x : ℚ => x) (fun x => x)
    (fun x => x) 3 [1, 2, 3, 4] false (by decide) (by decide) (by decide) (by decide)
    (by decide)
  obtain ⟨a', b', c', rest', e', h'⟩ := ofInputs_unsupported_length (fun x : ℚ => x)
    (fun x => x) (fun x => x) 3 [1, 2, 3, 4, 5, 6, 7, 8, 9, 10] true (by decide) (by decide)
    (by decide) (by decide) (by decide)
  simp only [List.cons.injEq] at e e'
  obtain ⟨rfl, rfl, rfl, _⟩ := e
  obtain ⟨rfl, rfl, rfl, _⟩ := e'
  exact ⟨h, h'⟩

/-- C19: for a 12-value raw-format input with translation `T` and matrix values
`r0 .. r8`, the Transform built from `-T` and the transposed values
`r0,r3,r6, r1,r4,r7, r2,r5,r8` is the reverse of the Transform built from `T` and
`r0 .. r8`: same `has_rot` and angle, negated translation and axis. -/
theorem ofInputs_transposed_is_reverse (cos acos sin : α → α) (pi : α)
    (t0 t1 t2 r0 r1 r2 r3 r4 r5 r6 r7 r8 : α) :
    ∃ t, Transform.ofInputs cos acos sin pi
        [t0, t1, t2, r0, r1, r2, r3, r4, r5, r6, r7, r8] false = .ok t ∧
      Transform.ofInputs cos acos sin pi
        [-t0, -t1, -t2, r0, r3, r6, r1, r4, r7, r2, r5, r8] false = .ok t.reverse := by
  refine ⟨_, ofInputs_twelve cos acos sin pi t0 t1 t2 r0 r1 r2 r3 r4 r5 r6 r7 r8 false, ?_⟩
  rw [ofInputs_twelve]
  simp only [decodeEntry, Bool.false_eq_true, if_false, rotationOf, Transform.reverse,
    Vector3d.neg, Except.ok.injEq, Transform.mk.injEq, Vector3d.mk.injEq, true_and, and_true]
  refine ⟨?_, ?_, ?_⟩ <;> ring

end ReverseProperties

/-- C12: `reverse` negates translation and axis and keeps angle and `has_rot`, and
it is an involution: reversing twice gives back the same translation, axis,
angle and `has_rot`, for every Transform. -/
theorem reverse_involution {α : Type} [Field α] (t : Transform α) :
    t.reverse.reverse = t ∧
      t.reverse.translation = t.translation.neg ∧ t.reverse.axis = t.axis.neg ∧
      t.reverse.theta = t.theta ∧ t.reverse.has_rot = t.has_rot := by
  refine ⟨?_, rfl, rfl, rfl, rfl⟩
  cases t with
  | mk tr hr ax th =>
    cases tr
    cases ax
    simp [Transform.reverse, Vector3d.neg]

/-! ## Fill addressing: order, origin and the lookup -/

/-- C15: on a gridded Fill whose ranges each contain 0 and whose node count is
`dx*dy*dz`, `getOriginNode()` succeeds and returns the node of `getNode(0,0,0)`,
the one at index `(-zrange.first)*(dy*dx) + (-yrange.first)*dx + (-xrange.first)`;
on a non-gridded Fill it is the lookup of index 0. -/
theorem getOriginNode_is_node_at_origin {N : Type} (f : Fill N) :
    (f.has_grid = true → inRange f.xrange 0 → inRange f.yrange 0 → inRange f.zrange 0 →
      (f.nodes.length : Int) = extent f.xrange * extent f.yrange * extent f.zrange →
      ∃ n, f.getOriginNode = .ok n ∧ f.getNode 0 0 0 = .ok n ∧
        f.nodes[((-f.zrange.1) * (extent f.yrange * extent f.xrange)
          + (-f.yrange.1) * extent f.xrange + (-f.xrange.1)).toNat]? = some n) ∧
    (f.has_grid = false →
      f.getOriginNode = vectorAt f.nodes 0 ∧
      ∀ n rest, f.nodes = n :: rest → f.getOriginNode = .ok n) := by
  constructor
  · intro hg ax ay az hn
    obtain ⟨b0, b1⟩ := f.rawIndex_bounds ax ay az
    rw [← hn] at b1
    have hlt : (f.rawIndex 0 0 0).toNat < f.nodes.length := by omega
    have hget : f.getNode 0 0 0 = .ok (f.nodes[(f.rawIndex 0 0 0).toNat]) :=
      (f.getNode_ok_iff hg 0 0 0 _).mpr ⟨b0, List.getElem?_eq_getElem hlt⟩
    have horig : f.getOriginNode = f.getNode 0 0 0 := by
      simp [Fill.getOriginNode, Fill.getNode, hg]
    refine ⟨_, horig.trans hget, hget, ?_⟩
    have e : (-f.zrange.1) * (extent f.yrange * extent f.xrange)
        + (-f.yrange.1) * extent f.xrange + (-f.xrange.1) = f.rawIndex 0 0 0 := by
      simp only [Fill.rawIndex, extent]; ring
    rw [e]
    exact List.getElem?_eq_getElem hlt
  · intro hg
    have e : f.getOriginNode = vectorAt f.nodes 0 := by
      simp [Fill.getOriginNode, hg]
    refine ⟨e, ?_⟩
    intro n rest hnodes
    rw [e, hnodes]
    simp [vectorAt]

/-- C15, on the 3 x 2 x 2 grid with ranges x:[-1,1], y:[0,1], z:[-1,0] (origin at
index 7) and on a single-node Fill. -/
theorem getOriginNode_is_node_at_origin_witness :
    (∃ n, grid322.getOriginNode = .ok n ∧ grid322.getNode 0 0 0 = .ok n ∧
      grid322.nodes[((-grid322.zrange.1) * (extent grid322.yrange * extent grid322.xrange)
        + (-grid322.yrange.1) * extent grid322.xrange + (-grid322.xrange.1)).toNat]?
        = some n) ∧
    grid322.getOriginNode = .ok "a7" ∧
    singleFill.getOriginNode = .ok "origin" :=
  ⟨(getOriginNode_is_node_at_origin grid322).1 rfl (by decide) (by decide) (by decide)
      (by decide),
    rfl,
    ((getOriginNode_is_node_at_origin singleFill).2 rfl).2 "origin" [] rfl⟩

/-- C18, at the failing input: on the 2 x 2 x 1 grid with four nodes the triple
(2,1,0) passes the assertion of `indicesToSerialIndex` with index 4, which is
`nodes.size()`, and the lookup `nodes.at(4)` of `getNode` fails. -/
theorem indicesToSerialIndex_returns_size :
    grid221.indicesToSerialIndex 2 1 0 = .ok 4 ∧ grid221.nodes.length = 4 ∧
      grid221.getNode 2 1 0 = .error Failure.out_of_range :=
  ⟨rfl, rfl, rfl⟩

/-! ## Lattice content and copies -/

/-- Cloning a holder gives an equal holder. -/
theorem Ref.clone_eq {T : Type} (r : Ref T) : r.clone = r := by
  cases r <;> rfl

/-- C14: when the held Fill is not gridded, `getFillForNode(x,y,z)` is the Fill's
origin node, the node at index 0, for all x,y,z, and never the failed assertion of
`getNode`; when the held Fill is gridded it is `getNode(x,y,z)` of the held Fill. -/
theorem getFillForNode_by_grid {N α : Type} (heap : Nat → Fill N) (l : Lattice N α) :
    ((l.fill.getData heap).has_grid = false →
      ∀ x y z, l.getFillForNode heap x y z = (l.fill.getData heap).getOriginNode ∧
        l.getFillForNode heap x y z = vectorAt (l.fill.getData heap).nodes 0 ∧
        l.getFillForNode heap x y z ≠ .error Failure.assertion ∧
        ∀ n rest, (l.fill.getData heap).nodes = n :: rest →
          l.getFillForNode heap x y z = .ok n) ∧
    ((l.fill.getData heap).has_grid = true →
      ∀ x y z, l.getFillForNode heap x y z = (l.fill.getData heap).getNode x y z) := by
  constructor
  · intro hg x y z
    have e1 : l.getFillForNode heap x y z = (l.fill.getData heap).getOriginNode := by
      simp [Lattice.getFillForNode, hg]
    have e2 : (l.fill.getData heap).getOriginNode = vectorAt (l.fill.getData heap).nodes 0 := by
      simp [Fill.getOriginNode, hg]
    refine ⟨e1, e1.trans e2, ?_, ?_⟩
    · rw [e1, e2]
      unfold vectorAt
      cases (l.fill.getData heap).nodes[0]? <;> simp
    · intro n rest hnodes
      rw [e1, e2, hnodes]
      simp [vectorAt]
  · intro hg x y z
    simp [Lattice.getFillForNode, hg]

/-- C14, on a lattice owning a single-node Fill and on one referring to the
2 x 2 x 1 grid. -/
theorem getFillForNode_by_grid_witness :
    latticeOwn.getFillForNode heap0 5 (-6) 7 = .ok "origin" ∧
    latticeRef.getFillForNode heap0 1 1 0 = grid221.getNode 1 1 0 ∧
    latticeRef.getFillForNode heap0 1 1 0 = .ok "n110" :=
  ⟨((getFillForNode_by_grid heap0 latticeOwn).1 rfl 5 (-6) 7).2.2.2 "origin" [] rfl,
    (getFillForNode_by_grid heap0 latticeRef).2 rfl 1 1 0, rfl⟩

/-- C13: a copy of a Lattice, by the copy constructor or by copy assignment from a
different object, answers `getFillForNode` and `getTxForNode` like the original
for all x,y,z; a referenced Fill stays referenced at the same target and an owned
Fill is owned by the copy with an equal value. -/
theorem copy_answers_like_original {N α : Type} [Field α] (heap : Nat → Fill N)
    (l self : Lattice N α) :
    (∀ x y z, l.copy.getFillForNode heap x y z = l.getFillForNode heap x y z ∧
      l.copy.getTxForNode x y z = l.getTxForNode x y z ∧
      (self.assign l true).getFillForNode heap x y z = l.getFillForNode heap x y z ∧
      (self.assign l true).getTxForNode x y z = l.getTxForNode x y z) ∧
    (∀ ptr, l.fill = .PointerRef ptr →
      l.copy.fill = .PointerRef ptr ∧ (self.assign l true).fill = .PointerRef ptr) ∧
    (∀ data, l.fill = .ImmediateRef data →
      l.copy.fill = .ImmediateRef data ∧ (self.assign l true).fill = .ImmediateRef data) := by
  have hc : l.copy = l := by
    cases l
    simp [Lattice.copy, Ref.clone_eq]
  have ha : self.assign l true = l := by
    cases l
    simp [Lattice.assign, Ref.clone_eq]
  rw [hc, ha]
  exact ⟨fun _ _ _ => ⟨rfl, rfl, rfl, rfl⟩, fun _ h => ⟨h, h⟩, fun _ h => ⟨h, h⟩⟩

/-- C13, on a lattice referring to the grid at address 0 and on one owning a
single-node Fill. -/
theorem copy_answers_like_original_witness :
    latticeRef.copy.getFillForNode heap0 1 0 0 = .ok "n100" ∧
    latticeRef.getFillForNode heap0 1 0 0 = .ok "n100" ∧
    latticeRef.copy.fill = .PointerRef 0 ∧
    (latticeRef.assign latticeOwn true).fill = .ImmediateRef singleFill ∧
    (latticeRef.assign latticeOwn true).getFillForNode heap0 3 3 3 = .ok "origin" :=
  have h := copy_answers_like_original heap0 latticeRef latticeOwn
  have k := copy_answers_like_original heap0 latticeOwn latticeRef
  ⟨(h.1 1 0 0).1.trans rfl, rfl, (h.2.1 0 rfl).1, (k.2.2 singleFill rfl).2,
    (k.1 3 3 3).2.2.1.trans rfl⟩

/-! ## The divisor of the axis -/

/-- The Transform that `rotationOf` describes is `set_rots_from_matrix` run on the
nine values, from a state with `has_rot` set. -/
theorem rotationOf_eq_set_rots {α : Type} [Field α] (acos sin : α → α) (pi : α)
    (tr : Vector3d α) (c0 c1 c2 c3 c4 c5 c6 c7 c8 : α) :
    rotationOf acos sin pi tr c0 c1 c2 c3 c4 c5 c6 c7 c8
      = Transform.set_rots_from_matrix acos sin pi ⟨tr, true, Vector3d.zero, 0⟩
          (rawOfList [c0, c1, c2, c3, c4, c5, c6, c7, c8]) := rfl

/-- Every input of 9, 12 or 13 values ends in `set_rots_from_matrix`, run from a
state with `has_rot` set. -/
theorem ofInputs_runs_set_rots {α : Type} [Field α] [DecidableEq α] (cos acos sin : α → α)
    (pi : α) (inputs : List α) (degree_format_p : Bool)
    (h : inputs.length = 9 ∨ inputs.length = 12 ∨ inputs.length = 13) :
    ∃ t0 raw_matrix, t0.has_rot = true ∧
      Transform.ofInputs cos acos sin pi inputs degree_format_p
        = .ok (Transform.set_rots_from_matrix acos sin pi t0 raw_matrix) := by
  rcases h with h | h | h
  · match inputs, h with
    | [t0, t1, t2, a0, a1, a2, a3, a4, a5], _ =>
      refine ⟨_, _, ?_, (ofInputs_nine cos acos sin pi t0 t1 t2 a0 a1 a2 a3 a4 a5
        degree_format_p).trans (congrArg Except.ok (rotationOf_eq_set_rots ..))⟩
      rfl
  · match inputs, h with
    | [t0, t1, t2, r0, r1, r2, r3, r4, r5, r6, r7, r8], _ =>
      refine ⟨_, _, ?_, (ofInputs_twelve cos acos sin pi t0 t1 t2 r0 r1 r2 r3 r4 r5 r6 r7 r8
        degree_format_p).trans (congrArg Except.ok (rotationOf_eq_set_rots ..))⟩
      rfl
  · match inputs, h with
    | [t0, t1, t2, r0, r1, r2, r3, r4, r5, r6, r7, r8, m], _ =>
      refine ⟨_, _, ?_, (ofInputs_thirteen cos acos sin pi t0 t1 t2 r0 r1 r2 r3 r4 r5 r6 r7 r8
        m degree_format_p).trans (congrArg Except.ok (rotationOf_eq_set_rots ..))⟩
      rfl

/-- Over the reals `sin(arccos c)` vanishes exactly for `c ≤ -1` or `1 ≤ c`. -/
theorem sin_arccos_eq_zero_iff (c : ℝ) :
    Real.sin (Real.arccos c) = 0 ↔ c ≤ -1 ∨ 1 ≤ c := by
  rw [Real.sin_arccos, Real.sqrt_eq_zero']
  constructor
  · intro h
    by_contra hc
    push_neg at hc
    nlinarith
  · rintro (h | h) <;> nlinarith

/-- The stored angle in degrees is 0 exactly for `1 ≤ c` and 180 exactly for
`c ≤ -1`. -/
theorem arccos_degrees (c : ℝ) :
    (Real.arccos c * (180 / Real.pi) = 0 ↔ 1 ≤ c) ∧
      (Real.arccos c * (180 / Real.pi) = 180 ↔ c ≤ -1) := by
  have hpi : Real.pi ≠ 0 := Real.pi_ne_zero
  constructor
  · rw [← Real.arccos_eq_zero]
    constructor
    · intro h
      have h180 : (180 : ℝ) / Real.pi ≠ 0 := div_ne_zero (by norm_num) hpi
      rcases mul_eq_zero.mp h with h | h
      · exact h
      · exact absurd h h180
    · intro h
      rw [h, zero_mul]
  · rw [← Real.arccos_eq_pi]
    constructor
    · intro h
      field_simp at h
      linarith
    · intro h
      rw [h]
      field_simp

/-- The trace of the matrix of `set_rots_from_matrix`. -/
theorem matOfRaw_trace {α : Type} [Field α] (raw_matrix : Nat → α) :
    (matOfRaw raw_matrix).trace = raw_matrix 0 + raw_matrix 4 + raw_matrix 8 := by
  rw [Matrix.trace, Fin.sum_univ_three]
  rfl

/-- C17: over the reals (with `arccos` clamped outside [-1,1]) the divisor
`2*sin(angle)` of the axis is non-zero exactly when the trace `t` of the matrix
satisfies `-1 < t < 3`; it is zero exactly when the stored angle is 0 degrees
(`t ≥ 3`) or 180 degrees (`t ≤ -1`); `set_rots_from_matrix` keeps `has_rot` and
divides by it in every case, and every input of 9, 12 or 13 values runs it with
`has_rot` set. -/
theorem twoSinTheta_zero_iff_degenerate :
    (∀ (raw_matrix : Nat → ℝ) (t : Transform ℝ),
      (twoSinTheta Real.arccos Real.sin raw_matrix ≠ 0 ↔
        -1 < (matOfRaw raw_matrix).trace ∧ (matOfRaw raw_matrix).trace < 3) ∧
      (twoSinTheta Real.arccos Real.sin raw_matrix = 0 ↔
        3 ≤ (matOfRaw raw_matrix).trace ∨ (matOfRaw raw_matrix).trace ≤ -1) ∧
      ((t.set_rots_from_matrix Real.arccos Real.sin Real.pi raw_matrix).theta = 0 ↔
        3 ≤ (matOfRaw raw_matrix).trace) ∧
      ((t.set_rots_from_matrix Real.arccos Real.sin Real.pi raw_matrix).theta = 180 ↔
        (matOfRaw raw_matrix).trace ≤ -1) ∧
      (t.set_rots_from_matrix Real.arccos Real.sin Real.pi raw_matrix).has_rot = t.has_rot ∧
      (t.set_rots_from_matrix Real.arccos Real.sin Real.pi raw_matrix).axis
        = ⟨(matOfRaw raw_matrix 2 1 - matOfRaw raw_matrix 1 2)
              / twoSinTheta Real.arccos Real.sin raw_matrix,
            (matOfRaw raw_matrix 0 2 - matOfRaw raw_matrix 2 0)
              / twoSinTheta Real.arccos Real.sin raw_matrix,
            (matOfRaw raw_matrix 1 0 - matOfRaw raw_matrix 0 1)
              / twoSinTheta Real.arccos Real.sin raw_matrix⟩) ∧
    (∀ (inputs : List ℝ) (degree_format_p : Bool),
      inputs.length = 9 ∨ inputs.length = 12 ∨ inputs.length = 13 →
      ∃ (t0 : Transform ℝ) (raw_matrix : Nat → ℝ), t0.has_rot = true ∧
        Transform.ofInputs Real.cos Real.arccos Real.sin Real.pi inputs degree_format_p
          = .ok (t0.set_rots_from_matrix Real.arccos Real.sin Real.pi raw_matrix)) := by
  refine ⟨?_, fun inputs deg h =>
    ofInputs_runs_set_rots Real.cos Real.arccos Real.sin Real.pi inputs deg h⟩
  intro raw t
  have hz : twoSinTheta Real.arccos Real.sin raw = 0 ↔
      3 ≤ (matOfRaw raw).trace ∨ (matOfRaw raw).trace ≤ -1 := by
    rw [matOfRaw_trace]
    simp only [twoSinTheta, matOfRaw_00, matOfRaw_11, matOfRaw_22, mul_eq_zero,
      two_ne_zero, false_or]
    rw [sin_arccos_eq_zero_iff]
    constructor
    · rintro (h | h)
      · right; linarith
      · left; linarith
    · rintro (h | h)
      · right; linarith
      · left; linarith
  refine ⟨?_, hz, ?_, ?_, rfl, rfl⟩
  · rw [Ne, hz]
    constructor
    · intro h
      push_neg at h
      exact ⟨h.2, h.1⟩
    · rintro ⟨h1, h2⟩ (h | h) <;> linarith
  · rw [matOfRaw_trace]
    simp only [Transform.set_rots_from_matrix, matOfRaw_00, matOfRaw_11, matOfRaw_22]
    rw [(arccos_degrees _).1]
    constructor <;> intro h <;> linarith
  · rw [matOfRaw_trace]
    simp only [Transform.set_rots_from_matrix, matOfRaw_00, matOfRaw_11, matOfRaw_22]
    rw [(arccos_degrees _).2]
    constructor <;> intro h <;> linarith

/-- C17, on the identity matrix (trace 3) as a 12-value raw input: `has_rot` is
set, the stored angle is 0 and the divisor of the axis is zero. -/
theorem twoSinTheta_zero_iff_degenerate_witness :
    (∃ (t0 : Transform ℝ) (raw_matrix : Nat → ℝ), t0.has_rot = true ∧
      Transform.ofInputs Real.cos Real.arccos Real.sin Real.pi
          [0, 0, 0, 1, 0, 0, 0, 1, 0, 0, 0, 1] false
        = .ok (t0.set_rots_from_matrix Real.arccos Real.sin Real.pi raw_matrix)) ∧
    twoSinTheta Real.arccos Real.sin (rawOfList [1, 0, 0, 0, 1, 0, 0, 0, 1]) = 0 ∧
    (Transform.set_rots_from_matrix Real.arccos Real.sin Real.pi
      ⟨⟨0, 0, 0⟩, true, Vector3d.zero, 0⟩ (rawOfList [1, 0, 0, 0, 1, 0, 0, 0, 1])).theta = 0 := by
  have htr : 3 ≤ (matOfRaw (rawOfList [(1 : ℝ), 0, 0, 0, 1, 0, 0, 0, 1])).trace := by
    rw [matOfRaw_trace]
    simp [rawOfList]
    norm_num
  have h := twoSinTheta_zero_iff_degenerate
  exact ⟨h.2 _ false (Or.inr (Or.inl rfl)),
    (h.1 _ ⟨⟨0, 0, 0⟩, true, Vector3d.zero, 0⟩).2.1.mpr (Or.inl htr),
    (h.1 _ ⟨⟨0, 0, 0⟩, true, Vector3d.zero, 0⟩).2.2.1.mpr htr⟩

end Mcnp2cad
